import Mathlib

/-!
Shallow embedding of the movie-recommender core
(`src/utils/embeddings.py`, `src/utils/recommender.py`).

Modelling conventions:
* Real-number scores are embedded as `ℚ` (the Python code computes with
  floats; every claim below is about order, membership and exact
  arithmetic identities, which the rational embedding captures).
* A movie's `genres_str` column is a space-separated token string in the
  source; it is embedded as its list of whitespace tokens, so that Python's
  `(g1 + " " + g2).split()` becomes list append and `set(...)` becomes
  `List.dedup`.
* `list(set1 | set2)` iterates a Python `set` in an unspecified
  (implementation-dependent) order.  The candidate-pool iteration order is
  therefore an explicit parameter `pool` of `recommend`, constrained by
  `ValidPool` to be a permutation of the duplicate-free union that the set
  holds.  Every run of the Python program corresponds to some valid `pool`.
* Python's `sorted(xs, key=f, reverse=True)` is a stable sort: the result
  is descending in `f` and ties keep the order of `xs`.  `List.insertionSort`
  with the relation `f b ≤ f a` has exactly these properties
  (`List.sorted_insertionSort`, `List.pair_sublist_insertionSort`), so it is
  used as the embedding of `sorted`.
-/

set_option allowUnsafeReducibility true in
attribute [semireducible] Rat.add Rat.mul Rat.inv Rat.sub

namespace MovieRec

/-- A movie record (one row of `movies_df` after `load_movie_data`):
identifier, title, overview, vote average and the genre tokens of the
`genres_str` column. -/
structure Movie where
  id : Int
  title : String
  overview : String
  vote_average : ℚ
  genres_str : List String
deriving DecidableEq, Inhabited

/-- The immutable state the engine reads: the movie table (row `i` of
`movies_df` is `movies.getD i default`) and the aligned embedding matrix
(row `i` of `embeddings` is the vector of movie row `i`). -/
structure RecState where
  movies : List Movie
  embeddings : List (List ℚ)

/-- Inner product of two vectors. -/
def dot (v w : List ℚ) : ℚ := (List.zipWith (fun a b => a * b) v w).sum

/-- Score every stored row against the query: the pairs
`(rowIndex, ⟨query, row⟩)` in ascending row order. -/
def scoreRows (emb : List (List ℚ)) (q : List ℚ) : List (ℕ × ℚ) :=
  (List.range emb.length).map (fun i => (i, dot q (emb.getD i [])))

/-- Descending-score order on `(rowIndex, score)` pairs (non-strict, so a
stable sort breaks ties by input position). -/
def descPair (a b : ℕ × ℚ) : Prop := b.2 ≤ a.2

instance : DecidableRel descPair := fun a b =>
  inferInstanceAs (Decidable (b.2 ≤ a.2))

/-- Modelled from the spec: the body of `EmbeddingManager.search_similar`
delegates to the external `faiss.IndexFlatIP.search`, which is not part of
this repository.  Following the spec's Vector Index contract, the search is
exact brute-force inner product: all rows scored, sorted by score
descending with ties broken by lower row index (stability of the sort over
the ascending-index `scoreRows` list), truncated to `min k N` results. -/
def search_similar (emb : List (List ℚ)) (q : List ℚ) (k : ℕ) : List (ℕ × ℚ) :=
  ((scoreRows emb q).insertionSort descPair).take k

/-- The score the Python expression
`scores[list(idxs).index(i)] if i in set(idxs) else 0` extracts: the score
of the first occurrence of row `i` in the result list, `0` if absent. -/
def lookupScore (res : List (ℕ × ℚ)) (i : ℕ) : ℚ :=
  ((res.find? (fun p => p.1 == i)).map Prod.snd).getD 0

/-- `blended_score` from `MovieRecommender.recommend`: the minimum of the
candidate's similarity to each seed, absent rows scoring 0. -/
def blended_score (r1 r2 : List (ℕ × ℚ)) (i : ℕ) : ℚ :=
  min (lookupScore r1 i) (lookupScore r2 i)

/-- The contents of `set(idxs1) | set(idxs2)` as a duplicate-free list
(one canonical representative; the iteration order the Python set produces
is unspecified and is quantified over via `ValidPool`). -/
def candidateUnion (r1 r2 : List (ℕ × ℚ)) : List ℕ :=
  ((r1.map Prod.fst) ++ (r2.map Prod.fst)).dedup

/-- `pool` is a possible value of `combined = list(set1 | set2)`: some
enumeration order of the duplicate-free union of the two searches' row
indices. -/
def ValidPool (r1 r2 : List (ℕ × ℚ)) (pool : List ℕ) : Prop :=
  pool.Perm (candidateUnion r1 r2)

instance (r1 r2 : List (ℕ × ℚ)) (pool : List ℕ) :
    Decidable (ValidPool r1 r2 pool) :=
  inferInstanceAs (Decidable (pool.Perm (candidateUnion r1 r2)))

/-- Descending order in a score function (non-strict). -/
def descScore (score : ℕ → ℚ) (a b : ℕ) : Prop := score b ≤ score a

instance (score : ℕ → ℚ) : DecidableRel (descScore score) := fun a b =>
  inferInstanceAs (Decidable (score b ≤ score a))

/-- Python's `sorted(pool, key=score, reverse=True)`: stable sort,
descending in `score`, ties keeping the order of `pool`. -/
def pySortDesc (score : ℕ → ℚ) (pool : List ℕ) : List ℕ :=
  pool.insertionSort (descScore score)

/-- The id-to-row mapping `{mid: idx for idx, mid in enumerate(movie_ids)}`
(`movie_ids` is the `id` column of `movies_df` in row order): the row whose
movie has identifier `mid`, the last such row winning as in a Python dict
comprehension, `none` if the identifier is absent. -/
def id_to_index (movies : List Movie) (mid : Int) : Option ℕ :=
  (List.range movies.length).reverse.find?
    (fun i => (movies.getD i default).id == mid)

/-- `MovieRecommender._get_combined_genres`:
`set((genres1 + " " + genres2).split())` at the token level. -/
def combined_genres (movies : List Movie) (idx1 idx2 : ℕ) : List String :=
  ((movies.getD idx1 default).genres_str ++
    (movies.getD idx2 default).genres_str).dedup

/-- `MovieRecommender._genre_bonus`:
`len(set(row.genres) & seed_genres) / (len(seed_genres) + 1e-9)`. -/
def genre_bonus (movieGenres seedGenres : List String) : ℚ :=
  (((movieGenres.dedup).filter (fun g => decide (g ∈ seedGenres))).length : ℚ) /
    ((seedGenres.length : ℚ) + 1 / 1000000000)

/-- One row of the returned frame: the pandas index label (`row`, the movie
row index preserved by `iloc`) and the selected columns
`id, title, overview, vote_average, genres_str, genre_score`. -/
structure RecEntry where
  row : ℕ
  id : Int
  title : String
  overview : String
  vote_average : ℚ
  genres_str : List String
  genre_score : ℚ
deriving DecidableEq

/-- The typed error `raise ValueError("One or both movie IDs not found")`. -/
inductive RecError where
  | unknownMovieId
deriving DecidableEq

/-- Build the output row for movie row `i`. -/
def mkEntry (movies : List Movie) (seedGenres : List String) (i : ℕ) : RecEntry :=
  { row := i, id := (movies.getD i default).id,
    title := (movies.getD i default).title,
    overview := (movies.getD i default).overview,
    vote_average := (movies.getD i default).vote_average,
    genres_str := (movies.getD i default).genres_str,
    genre_score := genre_bonus (movies.getD i default).genres_str seedGenres }

/-- The k=40 search issued for the seed at row `idx`:
`search_similar(embeddings[idx], k=40)`. -/
def seedResults (s : RecState) (idx : ℕ) : List (ℕ × ℚ) :=
  search_similar s.embeddings (s.embeddings.getD idx []) 40

/-- Steps 6-7 of the engine:
`ranked = sorted(combined, key=blended_score, reverse=True)` followed by
`ranked = [i for i in ranked if i not in (idx1, idx2)]`. -/
def rankedCandidates (s : RecState) (pool : List ℕ) (idx1 idx2 : ℕ) : List ℕ :=
  (pySortDesc (blended_score (seedResults s idx1) (seedResults s idx2)) pool).filter
    (fun i => !(i == idx1 || i == idx2))

/-- `MovieRecommender.recommend(movie_id1, movie_id2, top_n)`.  `pool` is
the iteration order of `list(set1 | set2)` (see module docstring). -/
def recommend (s : RecState) (pool : List ℕ) (movie_id1 movie_id2 : Int)
    (top_n : ℕ) : Except RecError (List RecEntry) :=
  match id_to_index s.movies movie_id1, id_to_index s.movies movie_id2 with
  | some idx1, some idx2 =>
    .ok (((rankedCandidates s pool idx1 idx2).take top_n).map
      (mkEntry s.movies (combined_genres s.movies idx1 idx2)))
  | _, _ => .error .unknownMovieId

/-- Refinement-only definition, following the spec's words (not the code):
the ordering the spec demands in step 6 — blended score descending with
ties broken by ascending row index. -/
def specTieSortDesc (score : ℕ → ℚ) (pool : List ℕ) : List ℕ :=
  pool.insertionSort
    (fun a b => score b < score a ∨ (score a = score b ∧ a ≤ b))

instance (score : ℕ → ℚ) (a b : ℕ) :
    Decidable (score b < score a ∨ (score a = score b ∧ a ≤ b)) :=
  inferInstanceAs (Decidable (_ ∨ _))

/-- The row labels of a successful recommendation, `none` on error (used to
state concrete facts about runs without spelling out whole entries). -/
def recRows (s : RecState) (pool : List ℕ) (movie_id1 movie_id2 : Int)
    (top_n : ℕ) : Option (List ℕ) :=
  (recommend s pool movie_id1 movie_id2 top_n).toOption.map
    (fun l => l.map RecEntry.row)

/-- Concrete five-movie corpus used for witnesses and counterexamples:
unit vectors in the plane, rows 0 and 3 equal, rows 1 and 4 equal. -/
def cs : RecState :=
  { movies :=
      [ { id := 10, title := "A", overview := "a", vote_average := 7,
          genres_str := ["Action", "Drama"] },
        { id := 20, title := "B", overview := "b", vote_average := 6,
          genres_str := ["Drama", "Comedy"] },
        { id := 30, title := "C", overview := "c", vote_average := 8,
          genres_str := ["Action"] },
        { id := 40, title := "D", overview := "d", vote_average := 5,
          genres_str := [] },
        { id := 50, title := "E", overview := "e", vote_average := 9,
          genres_str := ["Comedy", "Drama"] } ],
    embeddings :=
      [ [1, 0], [0, 1], [3/5, 4/5], [1, 0], [0, 1] ] }

instance : IsTotal (ℕ × ℚ) descPair := ⟨fun a b => le_total b.2 a.2⟩

instance : IsTrans (ℕ × ℚ) descPair := ⟨fun _ _ _ h1 h2 => le_trans h2 h1⟩

instance (score : ℕ → ℚ) : IsTotal ℕ (descScore score) :=
  ⟨fun a b => le_total (score b) (score a)⟩

instance (score : ℕ → ℚ) : IsTrans ℕ (descScore score) :=
  ⟨fun _ _ _ h1 h2 => le_trans h2 h1⟩

theorem scoreRows_length (emb : List (List ℚ)) (q : List ℚ) :
    (scoreRows emb q).length = emb.length := by
  simp [scoreRows]

theorem scoreRows_map_fst (emb : List (List ℚ)) (q : List ℚ) :
    (scoreRows emb q).map Prod.fst = List.range emb.length := by
  simp [scoreRows, List.map_map, Function.comp_def]

theorem mem_scoreRows {emb : List (List ℚ)} {q : List ℚ} {p : ℕ × ℚ} :
    p ∈ scoreRows emb q ↔ p.1 < emb.length ∧ p.2 = dot q (emb.getD p.1 []) := by
  obtain ⟨i, sc⟩ := p
  simp only [scoreRows, List.mem_map, List.mem_range, Prod.mk.injEq]
  constructor
  · rintro ⟨j, hj, rfl, rfl⟩
    exact ⟨hj, rfl⟩
  · rintro ⟨hi, rfl⟩
    exact ⟨i, hi, rfl, rfl⟩

theorem mem_of_mem_search (emb : List (List ℚ)) (q : List ℚ) (k : ℕ)
    {p : ℕ × ℚ} (h : p ∈ search_similar emb q k) : p ∈ scoreRows emb q := by
  have h1 : p ∈ (scoreRows emb q).insertionSort descPair :=
    List.take_subset _ _ h
  exact (List.mem_insertionSort descPair).mp h1

theorem search_similar_nodup_fst (emb : List (List ℚ)) (q : List ℚ) (k : ℕ) :
    ((search_similar emb q k).map Prod.fst).Nodup := by
  have hperm : List.Perm (((scoreRows emb q).insertionSort descPair).map Prod.fst)
      (List.range emb.length) := by
    have := (List.perm_insertionSort descPair (scoreRows emb q)).map Prod.fst
    rwa [scoreRows_map_fst] at this
  have hnd : (((scoreRows emb q).insertionSort descPair).map Prod.fst).Nodup :=
    hperm.nodup_iff.mpr (List.nodup_range _)
  exact hnd.sublist ((List.take_sublist _ _).map Prod.fst)

/-- C4 helper: the search output is a prefix of the full descending ranking,
hence `Pairwise` descending in score. -/
theorem search_similar_sorted (emb : List (List ℚ)) (q : List ℚ) (k : ℕ) :
    (search_similar emb q k).Pairwise (fun a b : ℕ × ℚ => b.2 ≤ a.2) := by
  have hs : ((scoreRows emb q).insertionSort descPair).Pairwise descPair :=
    List.sorted_insertionSort descPair (scoreRows emb q)
  exact hs.sublist (List.take_sublist _ _)

/-- C4: the search over `N` stored vectors returns `min k N` pairs
`(rowIndex, score)`, sorted by score descending, each score the inner
product of the query with the stored vector at that row, every row index
valid. -/
theorem search_similar_spec (emb : List (List ℚ)) (q : List ℚ) (k : ℕ) :
    (search_similar emb q k).length = min k emb.length ∧
    (search_similar emb q k).Pairwise (fun a b : ℕ × ℚ => b.2 ≤ a.2) ∧
    ∀ p ∈ search_similar emb q k,
      p.1 < emb.length ∧ p.2 = dot q (emb.getD p.1 []) := by
  refine ⟨?_, search_similar_sorted emb q k, ?_⟩
  · simp [search_similar, scoreRows_length]
  · intro p hp
    exact mem_scoreRows.mp (mem_of_mem_search emb q k hp)

theorem lookupScore_eq_zero {res : List (ℕ × ℚ)} {i : ℕ}
    (h : i ∉ res.map Prod.fst) : lookupScore res i = 0 := by
  have hfind : res.find? (fun p => p.1 == i) = none := by
    rw [List.find?_eq_none]
    intro p hp
    simp only [beq_iff_eq]
    intro hpe
    exact h (List.mem_map.mpr ⟨p, hp, hpe⟩)
  simp [lookupScore, hfind]

theorem lookupScore_eq_of_mem {res : List (ℕ × ℚ)}
    (hnd : (res.map Prod.fst).Nodup) {i : ℕ} {sc : ℚ}
    (h : (i, sc) ∈ res) : lookupScore res i = sc := by
  induction res with
  | nil => cases h
  | cons p rest ih =>
    simp only [List.map_cons, List.nodup_cons] at hnd
    rcases List.mem_cons.mp h with h1 | h1
    · subst h1
      have hfind : List.find? (fun p => p.1 == i) ((i, sc) :: rest)
          = some (i, sc) := List.find?_cons_of_pos _ (by simp)
      simp [lookupScore, hfind]
    · have hne : ¬(p.1 == i) = true := by
        simp only [beq_iff_eq]
        intro hpe
        exact hnd.1 (hpe ▸ List.mem_map.mpr ⟨(i, sc), h1, rfl⟩)
      have hrec := ih hnd.2 h1
      have hfind : List.find? (fun q => q.1 == i) (p :: rest)
          = List.find? (fun q => q.1 == i) rest := List.find?_cons_of_neg _ hne
      simp only [lookupScore] at hrec ⊢
      rw [hfind]
      exact hrec

theorem lookupScore_mem {res : List (ℕ × ℚ)} {i : ℕ}
    (h : i ∈ res.map Prod.fst) : (i, lookupScore res i) ∈ res := by
  induction res with
  | nil => cases h
  | cons p rest ih =>
    by_cases hpi : (p.1 == i) = true
    · have hp : p = (i, p.2) := by
        have h2 : p.1 = i := by simpa using hpi
        rw [← h2]
      have hfind : List.find? (fun q => q.1 == i) (p :: rest) = some p :=
        List.find?_cons_of_pos _ hpi
      rw [hp] at hfind ⊢
      simp [lookupScore, hfind]
    · have h1 : i ∈ rest.map Prod.fst := by
        rcases List.mem_map.mp h with ⟨q, hq, hqe⟩
        rcases List.mem_cons.mp hq with h2 | h2
        · exact absurd (by simp [← h2, hqe]) hpi
        · exact List.mem_map.mpr ⟨q, h2, hqe⟩
      have hrec := ih h1
      have hfind : List.find? (fun q => q.1 == i) (p :: rest)
          = List.find? (fun q => q.1 == i) rest := List.find?_cons_of_neg _ hpi
      simp only [lookupScore] at hrec ⊢
      rw [hfind]
      exact List.mem_cons_of_mem _ hrec

theorem candidateUnion_nodup (r1 r2 : List (ℕ × ℚ)) :
    (candidateUnion r1 r2).Nodup := List.nodup_dedup _

theorem mem_candidateUnion {r1 r2 : List (ℕ × ℚ)} {i : ℕ} :
    i ∈ candidateUnion r1 r2 ↔ i ∈ r1.map Prod.fst ∨ i ∈ r2.map Prod.fst := by
  simp [candidateUnion]

theorem ValidPool.nodup {r1 r2 : List (ℕ × ℚ)} {pool : List ℕ}
    (h : ValidPool r1 r2 pool) : pool.Nodup :=
  h.nodup_iff.mpr (candidateUnion_nodup r1 r2)

theorem ValidPool.mem_pool_iff {r1 r2 : List (ℕ × ℚ)} {pool : List ℕ}
    (h : ValidPool r1 r2 pool) {i : ℕ} :
    i ∈ pool ↔ i ∈ r1.map Prod.fst ∨ i ∈ r2.map Prod.fst := by
  rw [List.Perm.mem_iff (h : pool.Perm (candidateUnion r1 r2)),
    mem_candidateUnion]

theorem id_to_index_eq_some {movies : List Movie} {mid : Int} {i : ℕ}
    (h : id_to_index movies mid = some i) :
    i < movies.length ∧ (movies.getD i default).id = mid := by
  have hm : i ∈ (List.range movies.length).reverse :=
    List.mem_of_find?_eq_some h
  have hp := List.find?_some h
  simp only [beq_iff_eq] at hp
  rw [List.mem_reverse, List.mem_range] at hm
  exact ⟨hm, hp⟩

/-- C2: for every candidate in the pool, the blended score is the minimum
of the similarity found in each seed's result list, with absent rows
scoring 0, and every row index from either list occurs exactly once in the
pool. -/
theorem blended_score_spec (s : RecState) (idx1 idx2 : ℕ) (pool : List ℕ)
    (hp : ValidPool (seedResults s idx1) (seedResults s idx2) pool) :
    (∀ i sc1 sc2, (i, sc1) ∈ seedResults s idx1 → (i, sc2) ∈ seedResults s idx2 →
      blended_score (seedResults s idx1) (seedResults s idx2) i = min sc1 sc2) ∧
    (∀ i sc1, (i, sc1) ∈ seedResults s idx1 →
      i ∉ (seedResults s idx2).map Prod.fst →
      blended_score (seedResults s idx1) (seedResults s idx2) i = min sc1 0) ∧
    (∀ i sc2, (i, sc2) ∈ seedResults s idx2 →
      i ∉ (seedResults s idx1).map Prod.fst →
      blended_score (seedResults s idx1) (seedResults s idx2) i = min 0 sc2) ∧
    (∀ i, i ∈ (seedResults s idx1).map Prod.fst ∨
        i ∈ (seedResults s idx2).map Prod.fst → pool.count i = 1) := by
  have hnd1 : ((seedResults s idx1).map Prod.fst).Nodup :=
    search_similar_nodup_fst _ _ _
  have hnd2 : ((seedResults s idx2).map Prod.fst).Nodup :=
    search_similar_nodup_fst _ _ _
  refine ⟨?_, ?_, ?_, ?_⟩
  · intro i sc1 sc2 h1 h2
    rw [blended_score, lookupScore_eq_of_mem hnd1 h1, lookupScore_eq_of_mem hnd2 h2]
  · intro i sc1 h1 h2
    rw [blended_score, lookupScore_eq_of_mem hnd1 h1, lookupScore_eq_zero h2]
  · intro i sc2 h1 h2
    rw [blended_score, lookupScore_eq_of_mem hnd2 h1, lookupScore_eq_zero h2]
  · intro i hi
    have hmem : i ∈ pool := hp.mem_pool_iff.mpr hi
    exact List.count_eq_one_of_mem hp.nodup hmem

/-- C2 witness: row 2 appears in both top-40 lists of the concrete corpus
with scores 3/5 and 4/5, and its blended score is their minimum. -/
theorem blended_score_spec_witness :
    blended_score (seedResults cs 0) (seedResults cs 1) 2 = min (3/5) (4/5) :=
  (blended_score_spec cs 0 1 [0, 1, 2, 3, 4] (by decide)).1 2 (3/5) (4/5)
    (by decide) (by decide)

/-- C5: when either seed identifier is absent from the id-to-row mapping,
`recommend` fails with the typed error, whatever the embedding matrix, the
pool and the requested count — in particular the result does not depend on
any vector lookup or index search. -/
theorem recommend_unknown_id (movies : List Movie) (emb : List (List ℚ))
    (pool : List ℕ) (a b : Int) (n : ℕ)
    (h : id_to_index movies a = none ∨ id_to_index movies b = none) :
    recommend ⟨movies, emb⟩ pool a b n = .error .unknownMovieId := by
  rcases h with h | h
  · simp [recommend, h]
  · rw [recommend]
    cases id_to_index movies a <;> simp [h]

/-- C5 witness: identifier 999999999 is absent from the concrete corpus and
the call fails with the typed error. -/
theorem recommend_unknown_id_witness :
    recommend ⟨cs.movies, cs.embeddings⟩ [0, 1, 2, 3, 4] 999999999 20 6
      = .error .unknownMovieId :=
  recommend_unknown_id cs.movies cs.embeddings [0, 1, 2, 3, 4] 999999999 20 6
    (Or.inl (by decide))

theorem pySortDesc_perm (score : ℕ → ℚ) (pool : List ℕ) :
    List.Perm (pySortDesc score pool) pool :=
  List.perm_insertionSort _ _

theorem pySortDesc_sorted (score : ℕ → ℚ) (pool : List ℕ) :
    (pySortDesc score pool).Pairwise (fun i j => score j ≤ score i) :=
  List.sorted_insertionSort (descScore score) pool

theorem pySortDesc_stable (score : ℕ → ℚ) {pool : List ℕ} {i j : ℕ}
    (h : List.Sublist [i, j] pool) (hle : score j ≤ score i) :
    List.Sublist [i, j] (pySortDesc score pool) :=
  List.pair_sublist_insertionSort hle h

theorem rankedCandidates_perm (s : RecState) (pool : List ℕ) (idx1 idx2 : ℕ)
    (hp : ValidPool (seedResults s idx1) (seedResults s idx2) pool) :
    List.Perm (rankedCandidates s pool idx1 idx2)
      ((candidateUnion (seedResults s idx1) (seedResults s idx2)).filter
        (fun i => !(i == idx1 || i == idx2))) := by
  unfold rankedCandidates
  exact ((pySortDesc_perm _ pool).trans
    (hp : pool.Perm (candidateUnion _ _))).filter _

theorem rankedCandidates_sorted (s : RecState) (pool : List ℕ) (idx1 idx2 : ℕ) :
    (rankedCandidates s pool idx1 idx2).Pairwise
      (fun i j => blended_score (seedResults s idx1) (seedResults s idx2) j
        ≤ blended_score (seedResults s idx1) (seedResults s idx2) i) :=
  (pySortDesc_sorted _ pool).filter _

theorem mem_rankedCandidates {s : RecState} {pool : List ℕ} {idx1 idx2 i : ℕ}
    (hp : ValidPool (seedResults s idx1) (seedResults s idx2) pool) :
    i ∈ rankedCandidates s pool idx1 idx2 ↔
      (i ∈ (seedResults s idx1).map Prod.fst ∨
        i ∈ (seedResults s idx2).map Prod.fst) ∧ i ≠ idx1 ∧ i ≠ idx2 := by
  unfold rankedCandidates
  rw [List.mem_filter, (pySortDesc_perm _ pool).mem_iff, hp.mem_pool_iff]
  simp

theorem recommend_ok (s : RecState) (pool : List ℕ) (a b : Int) (n : ℕ)
    {idx1 idx2 : ℕ} (h1 : id_to_index s.movies a = some idx1)
    (h2 : id_to_index s.movies b = some idx2) :
    recommend s pool a b n =
      .ok (((rankedCandidates s pool idx1 idx2).take n).map
        (mkEntry s.movies (combined_genres s.movies idx1 idx2))) := by
  simp [recommend, h1, h2]

/-- C1 counterexample: on the concrete corpus, rows 3 and 4 have equal
blended scores, and two equally valid iteration orders of the same
candidate set give two different outputs — with the pool `[0,1,2,4,3]` the
output orders row 4 before the lower row 3.  The ranking is therefore not
tie-broken by ascending row index and not a function of the
`(rowIndex, score)` contents alone. -/
theorem ranked_tie_counterexample :
    ValidPool (seedResults cs 0) (seedResults cs 1) [0, 1, 2, 4, 3] ∧
    ValidPool (seedResults cs 0) (seedResults cs 1) [0, 1, 2, 3, 4] ∧
    blended_score (seedResults cs 0) (seedResults cs 1) 3
      = blended_score (seedResults cs 0) (seedResults cs 1) 4 ∧
    recRows cs [0, 1, 2, 4, 3] 10 20 3 = some [2, 4, 3] ∧
    recRows cs [0, 1, 2, 3, 4] 10 20 3 = some [2, 3, 4] ∧
    pySortDesc (blended_score (seedResults cs 0) (seedResults cs 1))
      [0, 1, 2, 4, 3] = [2, 0, 1, 4, 3] ∧
    specTieSortDesc (blended_score (seedResults cs 0) (seedResults cs 1))
      [0, 1, 2, 4, 3] = [2, 0, 1, 3, 4] :=
  ⟨by decide, by decide, by decide, by decide, by decide, by decide, by decide⟩

/-- C1 (amended): the ranking step is Python's stable sort — the candidate
pool, in its set-iteration order, is sorted by blended score descending,
and candidates with equal blended scores keep the pool's iteration order
(rather than being reordered by ascending row index). -/
theorem ranked_stable_sort (s : RecState) (pool : List ℕ) (idx1 idx2 : ℕ)
    (hp : ValidPool (seedResults s idx1) (seedResults s idx2) pool) :
    List.Perm (rankedCandidates s pool idx1 idx2)
      ((candidateUnion (seedResults s idx1) (seedResults s idx2)).filter
        (fun i => !(i == idx1 || i == idx2))) ∧
    (rankedCandidates s pool idx1 idx2).Pairwise
      (fun i j => blended_score (seedResults s idx1) (seedResults s idx2) j
        ≤ blended_score (seedResults s idx1) (seedResults s idx2) i) ∧
    ∀ i j, List.Sublist [i, j] pool →
      blended_score (seedResults s idx1) (seedResults s idx2) j
        ≤ blended_score (seedResults s idx1) (seedResults s idx2) i →
      i ≠ idx1 → i ≠ idx2 → j ≠ idx1 → j ≠ idx2 →
      List.Sublist [i, j] (rankedCandidates s pool idx1 idx2) := by
  refine ⟨rankedCandidates_perm s pool idx1 idx2 hp,
    rankedCandidates_sorted s pool idx1 idx2, ?_⟩
  intro i j hsub hle hi1 hi2 hj1 hj2
  have h1 : List.Sublist [i, j] (pySortDesc
      (blended_score (seedResults s idx1) (seedResults s idx2)) pool) :=
    pySortDesc_stable _ hsub hle
  have h2 := h1.filter (fun x => !(x == idx1 || x == idx2))
  rwa [show List.filter (fun x => !(x == idx1 || x == idx2)) [i, j] = [i, j]
    from by simp [hi1, hi2, hj1, hj2]] at h2

/-- C1 amended-claim witness: rows 3, 4 tie and stand in pool order in the
ranked list for the pool `[0,1,2,3,4]`. -/
theorem ranked_stable_sort_witness :
    List.Sublist [3, 4] (rankedCandidates cs [0, 1, 2, 3, 4] 0 1) :=
  (ranked_stable_sort cs [0, 1, 2, 3, 4] 0 1 (by decide)).2.2 3 4 (by decide)
    (by decide) (by decide) (by decide) (by decide) (by decide)

/-- C6: with valid seeds, `recommend` always succeeds, returns exactly
`min topN |eligible|` entries where the eligible candidates are the union
of the two 40-neighbour lists minus the two seed rows, and every entry is
an eligible candidate (no padding). -/
theorem recommend_shortfall (s : RecState) (pool : List ℕ) (a b : Int)
    (n : ℕ) {idx1 idx2 : ℕ} (h1 : id_to_index s.movies a = some idx1)
    (h2 : id_to_index s.movies b = some idx2)
    (hp : ValidPool (seedResults s idx1) (seedResults s idx2) pool) :
    ∃ out, recommend s pool a b n = .ok out ∧
      out.length = min n
        (((candidateUnion (seedResults s idx1) (seedResults s idx2)).filter
          (fun i => !(i == idx1 || i == idx2))).length) ∧
      ∀ e ∈ out, (e.row ∈ (seedResults s idx1).map Prod.fst ∨
          e.row ∈ (seedResults s idx2).map Prod.fst) ∧
        e.row ≠ idx1 ∧ e.row ≠ idx2 := by
  refine ⟨_, recommend_ok s pool a b n h1 h2, ?_, ?_⟩
  · rw [List.length_map, List.length_take,
      (rankedCandidates_perm s pool idx1 idx2 hp).length_eq]
  · intro e he
    rcases List.mem_map.mp he with ⟨i, hi, rfl⟩
    have himem : i ∈ rankedCandidates s pool idx1 idx2 :=
      List.take_subset _ _ hi
    have hc := (mem_rankedCandidates hp).mp himem
    simpa [mkEntry] using hc

/-- C6 witness: on the concrete corpus only three candidates remain after
seed removal, so asking for six returns exactly three eligible entries. -/
theorem recommend_shortfall_witness :
    ∃ out, recommend cs [0, 1, 2, 3, 4] 10 20 6 = .ok out ∧
      out.length = min 6
        (((candidateUnion (seedResults cs 0) (seedResults cs 1)).filter
          (fun i => !(i == 0 || i == 1))).length) ∧
      ∀ e ∈ out, (e.row ∈ (seedResults cs 0).map Prod.fst ∨
          e.row ∈ (seedResults cs 1).map Prod.fst) ∧
        e.row ≠ 0 ∧ e.row ≠ 1 :=
  recommend_shortfall cs [0, 1, 2, 3, 4] 10 20 6 (by decide) (by decide)
    (by decide)

/-- C9: the final candidate set is exactly the first `topN` entries of the
seed-filtered blended ranking, in that same order; genre reranking only
annotates each entry with its genre score and never reorders the window or
pulls in outside candidates. -/
theorem rerank_preserves (s : RecState) (pool : List ℕ) (a b : Int) (n : ℕ)
    {idx1 idx2 : ℕ} (h1 : id_to_index s.movies a = some idx1)
    (h2 : id_to_index s.movies b = some idx2) :
    ∃ out, recommend s pool a b n = .ok out ∧
      out = ((rankedCandidates s pool idx1 idx2).take n).map
        (mkEntry s.movies (combined_genres s.movies idx1 idx2)) ∧
      out.map RecEntry.row = (rankedCandidates s pool idx1 idx2).take n ∧
      ∀ e ∈ out, e.genre_score
        = genre_bonus e.genres_str (combined_genres s.movies idx1 idx2) := by
  refine ⟨_, recommend_ok s pool a b n h1 h2, rfl, ?_, ?_⟩
  · rw [List.map_map]
    have hid : (RecEntry.row ∘ mkEntry s.movies (combined_genres s.movies idx1 idx2))
        = id := funext fun i => rfl
    rw [hid, List.map_id]
  · intro e he
    rcases List.mem_map.mp he with ⟨i, hi, rfl⟩
    rfl

/-- C9 witness: the annotated output for a concrete run. -/
theorem rerank_preserves_witness :
    ∃ out, recommend cs [0, 1, 2, 3, 4] 10 20 2 = .ok out ∧
      out = ((rankedCandidates cs [0, 1, 2, 3, 4] 0 1).take 2).map
        (mkEntry cs.movies (combined_genres cs.movies 0 1)) ∧
      out.map RecEntry.row = (rankedCandidates cs [0, 1, 2, 3, 4] 0 1).take 2 ∧
      ∀ e ∈ out, e.genre_score
        = genre_bonus e.genres_str (combined_genres cs.movies 0 1) :=
  rerank_preserves cs [0, 1, 2, 3, 4] 10 20 2 (by decide) (by decide)

theorem candidateUnion_swap (r1 r2 : List (ℕ × ℚ)) :
    List.Perm (candidateUnion r1 r2) (candidateUnion r2 r1) := by
  refine (List.perm_ext_iff_of_nodup (candidateUnion_nodup r1 r2)
    (candidateUnion_nodup r2 r1)).mpr ?_
  intro a
  rw [mem_candidateUnion, mem_candidateUnion]
  exact or_comm

theorem combined_genres_swap (movies : List Movie) (idx1 idx2 : ℕ) :
    List.Perm (combined_genres movies idx1 idx2)
      (combined_genres movies idx2 idx1) := by
  unfold combined_genres
  refine (List.perm_ext_iff_of_nodup (List.nodup_dedup _)
    (List.nodup_dedup _)).mpr ?_
  intro a
  simp only [List.mem_dedup, List.mem_append]
  exact or_comm

theorem genre_bonus_congr (g : List String) {sd1 sd2 : List String}
    (hperm : List.Perm sd1 sd2) : genre_bonus g sd1 = genre_bonus g sd2 := by
  unfold genre_bonus
  have hf : g.dedup.filter (fun x => decide (x ∈ sd1))
      = g.dedup.filter (fun x => decide (x ∈ sd2)) :=
    List.filter_congr (fun x _ => by
      simp only [decide_eq_decide]
      exact hperm.mem_iff)
  rw [hf, hperm.length_eq]

theorem mkEntry_congr (movies : List Movie) {sd1 sd2 : List String}
    (h : List.Perm sd1 sd2) (i : ℕ) :
    mkEntry movies sd1 i = mkEntry movies sd2 i := by
  unfold mkEntry
  rw [genre_bonus_congr _ h]

theorem recommend_core_symm (s : RecState) (pool : List ℕ) (idx1 idx2 : ℕ)
    (n : ℕ) :
    ((rankedCandidates s pool idx1 idx2).take n).map
      (mkEntry s.movies (combined_genres s.movies idx1 idx2)) =
    ((rankedCandidates s pool idx2 idx1).take n).map
      (mkEntry s.movies (combined_genres s.movies idx2 idx1)) := by
  have hbl : blended_score (seedResults s idx1) (seedResults s idx2)
      = blended_score (seedResults s idx2) (seedResults s idx1) :=
    funext fun i => min_comm _ _
  have hcond : (fun i : ℕ => !(i == idx1 || i == idx2))
      = (fun i : ℕ => !(i == idx2 || i == idx1)) :=
    funext fun i => by rw [Bool.or_comm]
  have hrank : rankedCandidates s pool idx1 idx2
      = rankedCandidates s pool idx2 idx1 := by
    unfold rankedCandidates
    rw [hbl, hcond]
  rw [hrank]
  exact List.map_congr_left fun i _ =>
    mkEntry_congr s.movies (combined_genres_swap s.movies idx1 idx2) i

/-- C7 (amended): swapping the two seeds yields the same candidate set and
the same blended score for every candidate, and — provided the candidate
pool is iterated in the same order — the identical final list; the two
runs' set-iteration orders are the only possible source of divergence. -/
theorem recommend_symm (s : RecState) (pool : List ℕ) (a b : Int) (n : ℕ) :
    recommend s pool a b n = recommend s pool b a n ∧
    (∀ r1 r2 : List (ℕ × ℚ),
      List.Perm (candidateUnion r1 r2) (candidateUnion r2 r1)) ∧
    (∀ (r1 r2 : List (ℕ × ℚ)) (i : ℕ),
      blended_score r1 r2 i = blended_score r2 r1 i) := by
  refine ⟨?_, fun r1 r2 => candidateUnion_swap r1 r2,
    fun r1 r2 i => min_comm _ _⟩
  cases ha : id_to_index s.movies a with
  | none =>
    cases hb : id_to_index s.movies b with
    | none => simp [recommend, ha, hb]
    | some idx2 => simp [recommend, ha, hb]
  | some idx1 =>
    cases hb : id_to_index s.movies b with
    | none => simp [recommend, ha, hb]
    | some idx2 =>
      simp only [recommend, ha, hb]
      exact congrArg Except.ok (recommend_core_symm s pool idx1 idx2 n)

/-- C7 counterexample: on the concrete corpus, `recommend(10, 20)` with the
valid pool `[0,1,2,3,4]` and `recommend(20, 10)` with the equally valid
pool `[0,1,2,4,3]` return different final lists — candidates 3 and 4 tie
at blended score 0 and each run keeps its own set-iteration order, so the
claim that the two final ranked lists are always identical fails. -/
theorem recommend_symm_counterexample :
    ValidPool (seedResults cs 0) (seedResults cs 1) [0, 1, 2, 3, 4] ∧
    ValidPool (seedResults cs 1) (seedResults cs 0) [0, 1, 2, 4, 3] ∧
    recRows cs [0, 1, 2, 3, 4] 10 20 3 = some [2, 3, 4] ∧
    recRows cs [0, 1, 2, 4, 3] 20 10 3 = some [2, 4, 3] :=
  ⟨by decide, by decide, by decide, by decide⟩

theorem id_to_index_unique {movies : List Movie}
    (hids : (movies.map Movie.id).Nodup) {mid : Int} {i : ℕ}
    (h : id_to_index movies mid = some i) {j : ℕ} (hj : j < movies.length)
    (hjid : (movies.getD j default).id = mid) : j = i := by
  obtain ⟨hi, hiid⟩ := id_to_index_eq_some h
  have hgj : (movies.map Movie.id).get ⟨j, by simpa using hj⟩ = mid := by
    simp only [List.get_eq_getElem, List.getElem_map]
    rw [← hjid]
    exact congrArg Movie.id (List.getD_eq_getElem movies default hj) |>.symm ▸ rfl
  have hgi : (movies.map Movie.id).get ⟨i, by simpa using hi⟩ = mid := by
    simp only [List.get_eq_getElem, List.getElem_map]
    rw [← hiid]
    exact congrArg Movie.id (List.getD_eq_getElem movies default hi) |>.symm ▸ rfl
  have := hids.get_inj_iff.mp (hgj.trans hgi.symm)
  simpa using this

/-- C3: with distinct catalogue identifiers and an embedding matrix aligned
with the movie table, no returned entry carries either seed's row index or
either seed's identifier. -/
theorem seed_exclusion (s : RecState) (pool : List ℕ) (a b : Int) (n : ℕ)
    {idx1 idx2 : ℕ} (hids : (s.movies.map Movie.id).Nodup)
    (halign : s.embeddings.length = s.movies.length)
    (h1 : id_to_index s.movies a = some idx1)
    (h2 : id_to_index s.movies b = some idx2)
    (hp : ValidPool (seedResults s idx1) (seedResults s idx2) pool) :
    ∃ out, recommend s pool a b n = .ok out ∧
      ∀ e ∈ out, e.row ≠ idx1 ∧ e.row ≠ idx2 ∧ e.id ≠ a ∧ e.id ≠ b := by
  refine ⟨_, recommend_ok s pool a b n h1 h2, ?_⟩
  intro e he
  rcases List.mem_map.mp he with ⟨i, hi, rfl⟩
  have himem : i ∈ rankedCandidates s pool idx1 idx2 :=
    List.take_subset _ _ hi
  have hc := (mem_rankedCandidates hp).mp himem
  have hrow : i < s.movies.length := by
    rcases hc.1 with hm | hm
    · rcases List.mem_map.mp hm with ⟨p, hpmem, hpe⟩
      have hlt := (mem_scoreRows.mp (mem_of_mem_search _ _ _ hpmem)).1
      rw [halign] at hlt
      rwa [hpe] at hlt
    · rcases List.mem_map.mp hm with ⟨p, hpmem, hpe⟩
      have hlt := (mem_scoreRows.mp (mem_of_mem_search _ _ _ hpmem)).1
      rw [halign] at hlt
      rwa [hpe] at hlt
  refine ⟨hc.2.1, hc.2.2, ?_, ?_⟩
  · intro hid
    exact hc.2.1 (id_to_index_unique hids h1 hrow hid)
  · intro hid
    exact hc.2.2 (id_to_index_unique hids h2 hrow hid)

/-- C3 witness: the concrete corpus has distinct identifiers and an aligned
matrix; a concrete run returns no seed. -/
theorem seed_exclusion_witness :
    ∃ out, recommend cs [0, 1, 2, 3, 4] 10 20 3 = .ok out ∧
      ∀ e ∈ out, e.row ≠ 0 ∧ e.row ≠ 1 ∧ e.id ≠ 10 ∧ e.id ≠ 20 :=
  seed_exclusion cs [0, 1, 2, 3, 4] 10 20 3 (by decide) (by decide)
    (by decide) (by decide) (by decide)

theorem genre_bonus_nonneg (g sd : List String) : 0 ≤ genre_bonus g sd := by
  unfold genre_bonus
  apply div_nonneg
  · exact Nat.cast_nonneg _
  · positivity

theorem genre_bonus_le_one (g : List String) (sd : List String) :
    genre_bonus g sd ≤ 1 := by
  unfold genre_bonus
  rw [div_le_one (by positivity)]
  have hsubset : g.dedup.filter (fun x => decide (x ∈ sd)) ⊆ sd := by
    intro x hx
    exact of_decide_eq_true (List.mem_filter.mp hx).2
  have hnd2 : (g.dedup.filter (fun x => decide (x ∈ sd))).Nodup :=
    (List.nodup_dedup g).filter _
  have hlen : (g.dedup.filter (fun x => decide (x ∈ sd))).length ≤ sd.length :=
    (List.subperm_of_subset hnd2 hsubset).length_le
  calc ((g.dedup.filter (fun x => decide (x ∈ sd))).length : ℚ)
      ≤ (sd.length : ℚ) := by exact_mod_cast hlen
    _ ≤ (sd.length : ℚ) + 1 / 1000000000 := by
        nlinarith [sq_nonneg (1 : ℚ)]

/-- C8: every returned entry's genre score is exactly
`|movieTokens ∩ seedTokens| / (|seedTokens| + 1e-9)` where the seed token
set is the union of the two seeds' genre tokens, and whenever the seed set
is non-empty the score lies in `[0, 1]` with no explicit clamp. -/
theorem genre_score_spec (s : RecState) (pool : List ℕ) (a b : Int) (n : ℕ)
    {idx1 idx2 : ℕ} (h1 : id_to_index s.movies a = some idx1)
    (h2 : id_to_index s.movies b = some idx2) :
    ∃ out, recommend s pool a b n = .ok out ∧
      ∀ e ∈ out,
        e.genre_score =
          ((((s.movies.getD e.row default).genres_str.dedup.filter
              (fun g => decide (g ∈ combined_genres s.movies idx1 idx2))).length : ℚ) /
            (((combined_genres s.movies idx1 idx2).length : ℚ) + 1 / 1000000000)) ∧
        (combined_genres s.movies idx1 idx2 ≠ [] →
          0 ≤ e.genre_score ∧ e.genre_score ≤ 1) := by
  refine ⟨_, recommend_ok s pool a b n h1 h2, ?_⟩
  intro e he
  rcases List.mem_map.mp he with ⟨i, _, rfl⟩
  refine ⟨rfl, fun _ => ⟨genre_bonus_nonneg _ _, ?_⟩⟩
  exact genre_bonus_le_one _ _

/-- C8 witness: a concrete run with a non-empty seed genre set. -/
theorem genre_score_spec_witness :
    ∃ out, recommend cs [0, 1, 2, 3, 4] 10 20 2 = .ok out ∧
      ∀ e ∈ out,
        e.genre_score =
          ((((cs.movies.getD e.row default).genres_str.dedup.filter
              (fun g => decide (g ∈ combined_genres cs.movies 0 1))).length : ℚ) /
            (((combined_genres cs.movies 0 1).length : ℚ) + 1 / 1000000000)) ∧
        (combined_genres cs.movies 0 1 ≠ [] →
          0 ≤ e.genre_score ∧ e.genre_score ≤ 1) :=
  genre_score_spec cs [0, 1, 2, 3, 4] 10 20 2 (by decide) (by decide)

theorem candidateUnion_self (r : List (ℕ × ℚ))
    (hnd : (r.map Prod.fst).Nodup) :
    List.Perm (candidateUnion r r) (r.map Prod.fst) := by
  refine (List.perm_ext_iff_of_nodup (candidateUnion_nodup r r) hnd).mpr ?_
  intro x
  rw [mem_candidateUnion]
  exact or_self_iff

/-- C10: calling `recommend` with the same valid identifier for both seeds
succeeds; every returned entry comes from that seed's own top-40 list with
the seed row excluded, its blended score is its similarity to the seed
(`min s s = s`), the entries are ordered by that similarity descending,
the length is `min topN |top-40 minus seed|`, and no omitted eligible
neighbour scores higher than a returned one. -/
theorem recommend_same_seed (s : RecState) (pool : List ℕ) (a : Int) (n : ℕ)
    {idx1 : ℕ} (h1 : id_to_index s.movies a = some idx1)
    (hp : ValidPool (seedResults s idx1) (seedResults s idx1) pool) :
    ∃ out, recommend s pool a a n = .ok out ∧
      (∀ i, blended_score (seedResults s idx1) (seedResults s idx1) i
          = lookupScore (seedResults s idx1) i) ∧
      (∀ e ∈ out, e.row ∈ (seedResults s idx1).map Prod.fst ∧ e.row ≠ idx1) ∧
      (out.map (fun e => lookupScore (seedResults s idx1) e.row)).Pairwise
        (fun x y => y ≤ x) ∧
      out.length = min n (((seedResults s idx1).map Prod.fst).filter
        (fun i => !(i == idx1 || i == idx1))).length ∧
      ∀ e ∈ out, ∀ j ∈ (seedResults s idx1).map Prod.fst, j ≠ idx1 →
        (∀ e2 ∈ out, e2.row ≠ j) →
        lookupScore (seedResults s idx1) j
          ≤ lookupScore (seedResults s idx1) e.row := by
  have hsorted := rankedCandidates_sorted s pool idx1 idx1
  refine ⟨_, recommend_ok s pool a a n h1 h1, fun i => min_self _, ?_, ?_, ?_, ?_⟩
  · intro e he
    rcases List.mem_map.mp he with ⟨i, hi, rfl⟩
    have hc := (mem_rankedCandidates hp).mp (List.take_subset _ _ hi)
    rcases hc.1 with hm | hm
    · exact ⟨hm, hc.2.1⟩
    · exact ⟨hm, hc.2.1⟩
  · rw [List.map_map]
    have h3 : ((rankedCandidates s pool idx1 idx1).take n).Pairwise
        (fun i j => lookupScore (seedResults s idx1) j
          ≤ lookupScore (seedResults s idx1) i) :=
      (hsorted.sublist (List.take_sublist _ _)).imp
        (fun hab => by simpa [blended_score, min_self] using hab)
    exact List.pairwise_map.mpr h3
  · have hu : List.Perm (candidateUnion (seedResults s idx1) (seedResults s idx1))
        ((seedResults s idx1).map Prod.fst) :=
      candidateUnion_self _ (search_similar_nodup_fst _ _ _)
    rw [List.length_map, List.length_take,
      (rankedCandidates_perm s pool idx1 idx1 hp).length_eq,
      (hu.filter _).length_eq]
  · intro e he j hj hjne hnotin
    rcases List.mem_map.mp he with ⟨i, hi, rfl⟩
    have hjR : j ∈ rankedCandidates s pool idx1 idx1 :=
      (mem_rankedCandidates hp).mpr ⟨Or.inl hj, hjne, hjne⟩
    have hjtake : j ∉ (rankedCandidates s pool idx1 idx1).take n := by
      intro hjt
      exact hnotin (mkEntry s.movies (combined_genres s.movies idx1 idx1) j)
        (List.mem_map.mpr ⟨j, hjt, rfl⟩) rfl
    have hjdrop : j ∈ (rankedCandidates s pool idx1 idx1).drop n := by
      have hjR2 := hjR
      rw [← List.take_append_drop n (rankedCandidates s pool idx1 idx1)] at hjR2
      rcases List.mem_append.mp hjR2 with h | h
      · exact absurd h hjtake
      · exact h
    have hrel := List.Sorted.rel_of_mem_take_of_mem_drop
      (hsorted : List.Sorted _ (rankedCandidates s pool idx1 idx1)) hi hjdrop
    simpa [blended_score, min_self] using hrel

/-- C10 witness: `recommend(10, 10, 3)` on the concrete corpus. -/
theorem recommend_same_seed_witness :
    ∃ out, recommend cs [0, 1, 2, 3, 4] 10 10 3 = .ok out ∧
      (∀ i, blended_score (seedResults cs 0) (seedResults cs 0) i
          = lookupScore (seedResults cs 0) i) ∧
      (∀ e ∈ out, e.row ∈ (seedResults cs 0).map Prod.fst ∧ e.row ≠ 0) ∧
      (out.map (fun e => lookupScore (seedResults cs 0) e.row)).Pairwise
        (fun x y => y ≤ x) ∧
      out.length = min 3 (((seedResults cs 0).map Prod.fst).filter
        (fun i => !(i == 0 || i == 0))).length ∧
      ∀ e ∈ out, ∀ j ∈ (seedResults cs 0).map Prod.fst, j ≠ 0 →
        (∀ e2 ∈ out, e2.row ≠ j) →
        lookupScore (seedResults cs 0) j
          ≤ lookupScore (seedResults cs 0) e.row :=
  recommend_same_seed cs [0, 1, 2, 3, 4] 10 3 (by decide) (by decide)

/-- C4 witness: the spec applied to the concrete corpus at `k = 40`. -/
theorem search_similar_spec_witness :
    ((0:ℕ), (1:ℚ)).1 < cs.embeddings.length ∧
      ((0:ℕ), (1:ℚ)).2 = dot [1, 0] (cs.embeddings.getD ((0:ℕ), (1:ℚ)).1 []) :=
  (search_similar_spec cs.embeddings [1, 0] 40).2.2 (0, 1) (by decide)

example : recRows cs [0, 1, 2, 4, 3] 10 20 3 = some [2, 4, 3] := by decide

example : ValidPool (seedResults cs 0) (seedResults cs 1) [0, 1, 2, 4, 3] := by
  decide

end MovieRec
